import Mathlib

/-!
Verification development for the `nara-download` repository.

The repository has two main programs:
* `nara_get_metadata.py` — a paginated harvester for the catalogue search API,
  saving each page's JSON and extracting flat CSV rows;
* `nara_download_binaries.py` — a download engine consuming those CSV rows.

This file gives a shallow embedding of the parts of both programs that the
specification's claims are about, then states and proves theorems about the
embedding.  All definitions are translated from the Python source; machine
floating point (CPython `float`, i.e. IEEE-754 binary64) is modelled exactly
over `ℚ`, since every operation the code performs on floats (conversion from
`int`, division by 1024, correctly-rounded `int / int` true division, and
formatting to one fractional digit) is a correctly-rounded operation whose
result is a rational number.
-/

/-! ## Model of the binary64 floating-point operations used by the code -/

/-- Round a rational to an integer, ties to even.  This is the rounding used
by IEEE-754 round-to-nearest-even at tie points, by CPython `float(int)`
conversion, by CPython `int / int` true division, and by CPython `%.1f`
formatting of the exact value of a double. -/
def rhe (q : ℚ) : ℤ :=
  if q - ⌊q⌋ < 1/2 then ⌊q⌋
  else if (1:ℚ)/2 < q - ⌊q⌋ then ⌊q⌋ + 1
  else if ⌊q⌋ % 2 = 0 then ⌊q⌋ else ⌊q⌋ + 1

/-- Round a positive rational to 53 significant binary digits, ties to even:
the value (with unbounded exponent range) of the IEEE-754 binary64 nearest to
`q`.  Used to model CPython `float(int)` and the correctly-rounded result of
CPython `int / int` true division.  Nonpositive arguments are mapped to `0`;
all uses in this file are on positive arguments. -/
def floatRound (q : ℚ) : ℚ :=
  if q ≤ 0 then 0
  else (rhe (q / 2 ^ (Int.log 2 q - 52)) : ℚ) * 2 ^ (Int.log 2 q - 52)

/-- Model of CPython `float(n)` for a nonnegative `int` `n`: the rounded value,
or `none` when the rounded value overflows binary64 (Python raises
`OverflowError`). -/
def float_of_nat (n : ℕ) : Option ℚ :=
  if floatRound (n : ℚ) < 2 ^ (1024 : ℕ) then some (floatRound (n : ℚ)) else none

/-- Model of CPython `a / b` true division on nonnegative ints with `b > 0`:
the correctly rounded binary64 quotient.  (Python raises `ZeroDivisionError`
for `b = 0`; every theorem below assumes `0 < b`.) -/
def pyTrueDiv (a b : ℤ) : ℚ := floatRound ((a : ℚ) / (b : ℚ))

/-- Model of CPython `f"..:.1f"` formatting of the exact (rational) value of a
nonnegative double: correctly rounded to one fractional digit, ties to even. -/
def formatFixed1 (q : ℚ) : String :=
  toString (rhe (q * 10) / 10) ++ "." ++ toString (rhe (q * 10) % 10)

/-! ## `nara_download_binaries.py`: `human_readable_size` -/

/-- The unit list `units = ["K","M","G","T","P","E","Z","Y"]` from
`human_readable_size`. -/
def hrUnits : List String := ["K", "M", "G", "T", "P", "E", "Z", "Y"]

/-- Python list indexing `l[i]`: nonnegative indices from the front, negative
indices from the back, `none` (an `IndexError`) when out of range. -/
def pyListGet (l : List String) (i : ℤ) : Option String :=
  if 0 ≤ i then l.get? i.toNat
  else if (-i).toNat ≤ l.length then l.get? (l.length - (-i).toNat) else none

/-- The `while size >= 1024 and idx < len(units)` loop of
`human_readable_size`, with explicit fuel (the loop runs at most 9 times, so
any fuel `≥ 9` gives the loop's exact behaviour; the program model below uses
fuel 16). -/
def hrLoop : ℕ → ℚ → ℤ → ℚ × ℤ
  | 0, size, idx => (size, idx)
  | fuel + 1, size, idx =>
    if 1024 ≤ size ∧ idx < 8 then hrLoop fuel (size / 1024) (idx + 1)
    else (size, idx)

/-- Model of `human_readable_size(num_bytes)` for a nonnegative `int`
argument.  Returns `none` when the Python function raises instead of
returning a string (an `OverflowError` converting to float, or an
`IndexError` in the final `units[idx]` lookup). -/
def human_readable_size (num_bytes : ℕ) : Option String :=
  if num_bytes < 1024 then some (toString num_bytes ++ "B")
  else
    match float_of_nat num_bytes with
    | none => none
    | some f =>
      match pyListGet hrUnits (hrLoop 16 f (-1)).2 with
      | none => none
      | some u => some (formatFixed1 (hrLoop 16 f (-1)).1 ++ u)

/-! ## `nara_download_binaries.py`: output directory allocator -/

/-- Model of `os.path.join(basedir, name)` for the simple relative names this
program builds. -/
def pyJoin (a b : String) : String := a ++ "/" ++ b

/-- The body of `find_download_subdir`'s `while True` loop, searching upward
from index `i`: the first `i' ≥ i` whose candidate path does not exist gives
the result.  `fuel` bounds the search so the function is total; the theorems
instantiate it large enough to cover the loop's actual behaviour. -/
def findSubdirFrom (pathExists : String → Bool) (basedir today_str : String) :
    ℕ → ℕ → Option String
  | 0, _ => none
  | fuel + 1, i =>
    let path := pyJoin basedir (today_str ++ "-" ++ toString i)
    if pathExists path then findSubdirFrom pathExists basedir today_str fuel (i + 1)
    else some path

/-- Model of `find_download_subdir(basedir)`: search `YYYYMMDD-1`,
`YYYYMMDD-2`, ... under `basedir` for the first name that does not exist.
The date string and the existence test (the state of the file system) are
parameters of the model. -/
def find_download_subdir (pathExists : String → Bool) (basedir today_str : String)
    (fuel : ℕ) : Option String :=
  findSubdirFrom pathExists basedir today_str fuel 1

/-- Model of `os.makedirs(p, exist_ok=True)` acting on a file-system state
given as an existence test: afterwards `p` and every ancestor directory of
`p` exist. -/
def makedirs (pathExists : String → Bool) (p : String) : String → Bool :=
  fun q => pathExists q || q == p || (q ++ "/").data.isPrefixOf p.data

/-! ## `nara_download_binaries.py`: CSV row parsing and the download loop -/

/-- Model of CPython `int(s)` on the strings this pipeline produces: an
optional sign followed by at least one decimal digit parses to the value,
anything else is `none` (a `ValueError`). -/
def parsePyInt (s : String) : Option ℤ :=
  let signed : ℤ × List Char :=
    match s.data with
    | '-' :: rest => (-1, rest)
    | '+' :: rest => (1, rest)
    | rest => (1, rest)
  if signed.2 ≠ [] ∧ signed.2.all Char.isDigit then
    some (signed.1 * (signed.2.foldl (fun a c => a * 10 + ((c.toNat : ℤ) - 48)) 0))
  else none

/-- Model of `row.get("objectFileSize") or "0"`: a missing field (`None`) or
an empty string is replaced by `"0"`. -/
def csvSizeField (objectFileSize : Option String) : String :=
  match objectFileSize with
  | none => "0"
  | some s => if s = "" then "0" else s

/-- Model of the declared-size parsing in `main` of
`nara_download_binaries.py`: `file_size = 0`, then
`try: file_size = int(file_size_str)` with the exception swallowed. -/
def parse_file_size (objectFileSize : Option String) : ℤ :=
  (parsePyInt (csvSizeField objectFileSize)).getD 0

/-- One flattened item of the download loop, as built from a CSV row:
`csv_line` is the 1-based row ordinal recorded by the CSV reader. -/
structure DlItem where
  csv_line : ℕ
  naId : Option String
  title : Option String
  objectUrl : Option String
  objectFileSize : ℤ
deriving DecidableEq

/-- The counters and failure list accumulated by the download loop of
`nara_download_binaries.py`. -/
structure DlSummary where
  attempted : ℕ
  successful : ℕ
  failures : List (ℕ × String)
deriving DecidableEq

/-- One iteration of the download loop: `if not url: log and continue`;
otherwise count the attempt, then either count the success or append
`(csv_line, url)` to the failure list.  `fetchOk` abstracts
`download_with_progress` (returns whether the transfer succeeded). -/
def downloadStep (fetchOk : String → Bool) (acc : DlSummary) (item : DlItem) :
    DlSummary :=
  match item.objectUrl with
  | none => acc
  | some url =>
    if url = "" then acc
    else
      if fetchOk url then
        { acc with attempted := acc.attempted + 1, successful := acc.successful + 1 }
      else
        { acc with attempted := acc.attempted + 1,
                   failures := acc.failures ++ [(item.csv_line, url)] }

/-- Model of the `for i, item in enumerate(rows, start=1)` download loop and
the summary it produces. -/
def runDownloads (fetchOk : String → Bool) (rows : List DlItem) : DlSummary :=
  rows.foldl (downloadStep fetchOk) ⟨0, 0, []⟩

/-! ## `nara_get_metadata.py`: response shape and record extraction -/

/-- A JSON scalar as it appears in the fields this pipeline reads (strings
and integers are the cases that occur; which one a field holds is not fixed
by the code, which passes values through dynamically). -/
inductive JVal where
  | s (v : String)
  | n (v : ℤ)
deriving DecidableEq

/-- One element of a record's `digitalObjects` list.  Every field is read
with `dict.get` and may be absent. -/
structure DigitalObject where
  objectUrl : Option JVal
  objectFileSize : Option JVal
deriving DecidableEq

/-- The `record` object inside a hit's `_source`. -/
structure NaraRecord where
  naId : Option JVal
  title : Option JVal
  digitalObjects : Option (List DigitalObject)
deriving DecidableEq

/-- The `_source` wrapper of a hit. -/
structure HitSource where
  record : Option NaraRecord
deriving DecidableEq

/-- One element of `body.hits.hits`. -/
structure Hit where
  source : Option HitSource
deriving DecidableEq

/-- The `total` object of the hits section. -/
structure TotalInfo where
  value : Option ℤ
deriving DecidableEq

/-- The `hits` section of a response body. -/
structure HitsSection where
  total : Option TotalInfo
  hits : Option (List Hit)
deriving DecidableEq

/-- The `body` of a search response. -/
structure RespBody where
  hits : Option HitsSection
deriving DecidableEq

/-- A parsed `/records/search` response. -/
structure ApiResponse where
  body : Option RespBody
deriving DecidableEq

/-- Model of `data.get("body", {}).get("hits", {}).get("total", {}).get("value", 0)`. -/
def get_total_records (data : ApiResponse) : ℤ :=
  ((((data.body.getD ⟨none⟩).hits.getD ⟨none, none⟩).total.getD ⟨none⟩).value.getD 0)

/-- Model of `data.get("body", {}).get("hits", {}).get("hits", [])`. -/
def get_hits (data : ApiResponse) : List Hit :=
  (((data.body.getD ⟨none⟩).hits.getD ⟨none, none⟩).hits.getD [])

/-- One row extracted by Step 3 of `nara_get_metadata.py`.  The `naId`,
`objectUrl` and `objectFileSize` fields are passed through exactly as read
(`dict.get` with no default); only `title` has a default, the empty string. -/
structure ExtractedRow where
  naId : Option JVal
  title : JVal
  objectUrl : Option JVal
  objectFileSize : Option JVal
deriving DecidableEq

/-- Model of Step 3 of `main` in `nara_get_metadata.py`: for each hit take
`_source` then `record` (each defaulting to an empty dict), read `naId`,
`title` (default `""`) and `digitalObjects` (default `[]`), and emit one row
per digital object. -/
def extract_rows (all_hits : List Hit) : List ExtractedRow :=
  all_hits.foldl
    (fun acc hit =>
      let record := (hit.source.getD ⟨none⟩).record.getD ⟨none, none, none⟩
      acc ++ (record.digitalObjects.getD []).map
        (fun dobj =>
          ⟨record.naId, record.title.getD (JVal.s ""), dobj.objectUrl,
            dobj.objectFileSize⟩))
    []

/-! ## `nara_get_metadata.py`: pagination, page snapshots and startup -/

/-- Model of the f-string building each page snapshot's file name.  Note the
name starts with the fixed literal `searchNaid-metadata` and mentions only
the page number, the total page count and the date string — the query target
does not occur in it. -/
def page_filename (pg : ℕ) (total_pages : ℤ) (now_str : String) : String :=
  "searchNaid-metadata-pg" ++ toString pg ++ "of" ++ toString total_pages ++ "-"
    ++ now_str ++ ".json"

/-- Model of `total_pages = math.ceil(total_records / limit)`: `math.ceil` of
the correctly rounded binary64 quotient. -/
def run_total_pages (total_records limit : ℤ) : ℤ :=
  ⌈pyTrueDiv total_records limit⌉

/-- The result of one invocation of `main`'s harvesting phase in
`nara_get_metadata.py` (after CLI/startup): the pages for which a fetch was
attempted (in order), the page snapshots written (file name and content, in
order), the page count computed from page 1 (`none` when the run exited
before computing it: a page-1 failure, or `total == 0`), and the accumulated
hit list handed to extraction. -/
structure HarvestResult where
  attempts : List ℕ
  saved : List (String × ApiResponse)
  total_pages : Option ℤ
  all_hits : List Hit
deriving DecidableEq

/-- The `for pg in range(2, total_pages + 1)` loop of `main`, over the
explicit list of remaining page numbers.  A failed fetch/parse (`none`)
records the attempt and breaks; a successful page is saved, its hits
appended, and the loop continues. -/
def fetchPages (fetch : ℕ → Option ApiResponse) (total_pages : ℤ)
    (now_str : String) : List ℕ → HarvestResult
  | [] => ⟨[], [], none, []⟩
  | pg :: rest =>
    match fetch pg with
    | none => ⟨[pg], [], none, []⟩
    | some data =>
      let out := fetchPages fetch total_pages now_str rest
      ⟨pg :: out.attempts, (page_filename pg total_pages now_str, data) :: out.saved,
        none, get_hits data ++ out.all_hits⟩

/-- Model of the harvesting phase of `main` in `nara_get_metadata.py` for one
query-parameter value: fetch page 1 (failure exits the process), read
`total_records` from it (`== 0` exits the process), compute `total_pages`
once, save page 1, then run the page loop over `range(2, total_pages + 1)`.
`fetch pg` abstracts `session.get` + `raise_for_status` + JSON parsing of the
page `pg` request (`none` for any exception). -/
def harvest (fetch : ℕ → Option ApiResponse) (limit : ℤ) (now_str : String) :
    HarvestResult :=
  match fetch 1 with
  | none => ⟨[1], [], none, []⟩
  | some data =>
    if get_total_records data = 0 then ⟨[1], [], none, []⟩
    else
      let tp := run_total_pages (get_total_records data) limit
      let out := fetchPages fetch tp now_str (List.range' 2 (tp - 1).toNat)
      ⟨1 :: out.attempts,
        (page_filename 1 tp now_str, data) :: out.saved,
        some tp,
        get_hits data ++ out.all_hits⟩

/-- Model of `naid_param = ",".join(naid_list)`: the whole target list is
collapsed into one comma-separated query-parameter value. -/
def naid_param_of (naid_list : List String) : String :=
  String.intercalate "," naid_list

/-- Model of the complete harvesting phase as a function of the target list:
the single combined parameter value is built once and one pagination run is
performed for it.  `fetch` abstracts the transport, keyed by the parameter
value and the page number. -/
def metadata_run (fetch : String → ℕ → Option ApiResponse)
    (naid_list : List String) (limit : ℤ) (now_str : String) : HarvestResult :=
  harvest (fetch (naid_param_of naid_list)) limit now_str

/-- A file-system side effect performed during startup. -/
inductive FsEvent where
  | mkdir (path : String)
deriving DecidableEq

/-- Model of the startup phase of `main` in `nara_get_metadata.py`, up to the
point where the NAID list is determined (the first network request comes
after this phase).  Returns the file-system events performed, and `some
naid_list` if the run proceeds, `none` if the process exits first.  The
order in the source is: check `NARA_API_KEY` (exit if unset), then
`os.makedirs(args.outdir, exist_ok=True)`, then — only if `--batch` was given
— check the batch file exists (exit if not) and read it, else fall back to
`--naid` (exit via `parser.error` if also absent).  `readBatch` abstracts
`os.path.isfile` + reading lines: `none` when the file does not exist. -/
def metadata_startup (api_key : Option String) (outdir : String)
    (batch : Option String) (readBatch : String → Option (List String))
    (naid : Option (List String)) : List FsEvent × Option (List String) :=
  match api_key with
  | none => ([], none)
  | some _ =>
    let events := [FsEvent.mkdir outdir]
    match batch with
    | some bpath =>
      match readBatch bpath with
      | none => (events, none)
      | some lines => (events, some ((lines.map String.trim).filter (· ≠ "")))
    | none =>
      match naid with
      | none => (events, none)
      | some l => (events, some l)

/-- Model of the startup phase of `main` in `nara_download_binaries.py`:
parse the CSV (exit 1 on any read error), and exit 0 when it contains no
rows; the download directory is only created after both checks pass.
`readCsv` abstracts opening and parsing the CSV (`none` for an exception).
Returns the file-system events performed before the process exits, and the
parsed rows if the run proceeds to directory creation. -/
def binaries_startup (readCsv : Option (List DlItem)) :
    List FsEvent × Option (List DlItem) :=
  match readCsv with
  | none => ([], none)
  | some rows =>
    match rows with
    | [] => ([], none)
    | _ => ([], some rows)

/-! ## Concrete sample inputs used by counterexamples and witnesses -/

/-- A sample response whose hits section reports total `total` and carries
`hits`. -/
def onePage (total : ℤ) (hits : List Hit) : ApiResponse :=
  ⟨some ⟨some ⟨some ⟨some total⟩, some hits⟩⟩⟩

/-- A sample hit whose record is numbered `p` and has one digital object. -/
def hitNum (p : ℕ) : Hit :=
  ⟨some ⟨some ⟨some (JVal.n (p : ℤ)), some (JVal.s "t"),
    some [⟨some (JVal.s "http://x/a.bin"), some (JVal.n 1)⟩]⟩⟩⟩

/-- A transport on which the combined query for targets `1` and `2` fails but
the query for target `2` alone succeeds (one page, one hit). -/
def fetchFailsForTarget1 : String → ℕ → Option ApiResponse :=
  fun param _ => if param = "2" then some (onePage 1 [hitNum 2]) else none

/-- A sample response with one-record total and no hits. -/
def samplePage : ApiResponse := onePage 1 []

/-! ## Basic lemmas about the extraction and download models -/

/-- The rows contributed by a single hit in Step 3 of `nara_get_metadata.py`. -/
def rows_of_hit (hit : Hit) : List ExtractedRow :=
  let record := (hit.source.getD ⟨none⟩).record.getD ⟨none, none, none⟩
  (record.digitalObjects.getD []).map
    (fun dobj =>
      ⟨record.naId, record.title.getD (JVal.s ""), dobj.objectUrl,
        dobj.objectFileSize⟩)

lemma foldl_append_eq {α β : Type} (f : α → List β) :
    ∀ (l : List α) (acc : List β),
      List.foldl (fun a x => a ++ f x) acc l = acc ++ l.flatMap f
  | [], acc => by simp
  | x :: t, acc => by
    rw [List.foldl_cons, foldl_append_eq f t, List.flatMap_cons, List.append_assoc]

lemma extract_rows_eq_bind (l : List Hit) : extract_rows l = l.flatMap rows_of_hit := by
  show List.foldl (fun a x => a ++ rows_of_hit x) [] l = l.flatMap rows_of_hit
  rw [foldl_append_eq]
  simp

lemma extract_rows_append (a b : List Hit) :
    extract_rows (a ++ b) = extract_rows a ++ extract_rows b := by
  simp [extract_rows_eq_bind]

lemma runDownloads_append (fetchOk : String → Bool) (a b : List DlItem) :
    runDownloads fetchOk (a ++ b)
      = b.foldl (downloadStep fetchOk) (runDownloads fetchOk a) := by
  simp [runDownloads, List.foldl_append]

lemma downloadStep_empty_url (fetchOk : String → Bool) (acc : DlSummary)
    (item : DlItem) (h : item.objectUrl = none ∨ item.objectUrl = some "") :
    downloadStep fetchOk acc item = acc := by
  rcases h with h | h <;> simp [downloadStep, h]

/-! ## Claim C5 -/

/-- C5: the download engine skips an item with an empty (or missing) URL —
it is not counted as an attempt and not added to the failure list, and
processing continues with the next item; and in the concrete scenario with
rows 1 (succeeds), 2 (empty URL) and 3 (fails), the summary reports
`attempted = 2`, `succeeded = 1` and exactly the failure entry
`(3, "http://x/b.bin")`. -/
theorem download_loop_skip_and_failure_accounting :
    (∀ (fetchOk : String → Bool) (pre post : List DlItem) (item : DlItem),
        item.objectUrl = none ∨ item.objectUrl = some "" →
        runDownloads fetchOk (pre ++ item :: post)
          = runDownloads fetchOk (pre ++ post)) ∧
    runDownloads (fun u => u == "http://x/a.bin")
        [⟨1, none, none, some "http://x/a.bin", 100⟩,
         ⟨2, none, none, some "", 0⟩,
         ⟨3, none, none, some "http://x/b.bin", 200⟩]
      = ⟨2, 1, [(3, "http://x/b.bin")]⟩ := by
  constructor
  · intro fetchOk pre post item h
    rw [runDownloads_append, runDownloads_append, List.foldl_cons,
      downloadStep_empty_url fetchOk _ item h]
  · decide

/-- Witness for C5: a concrete instance of the skip property, via the claim's
theorem. -/
theorem download_loop_skip_and_failure_accounting_witness :
    runDownloads (fun _ => true)
        ([⟨1, none, none, some "http://x/a.bin", 100⟩]
          ++ (⟨2, none, none, some "", 0⟩ : DlItem)
            :: [⟨3, none, none, some "http://x/b.bin", 200⟩])
      = runDownloads (fun _ => true)
        ([⟨1, none, none, some "http://x/a.bin", 100⟩]
          ++ [⟨3, none, none, some "http://x/b.bin", 200⟩]) :=
  download_loop_skip_and_failure_accounting.1 _ _ _ _ (Or.inr rfl)

/-! ## Claim C4 -/

/-- C4 counterexample: the record extractor does not default a missing
declared size to 0 — it passes the absent field through unchanged (`none`,
which the CSV writer renders as an empty field), so the claim that "a
missing value yields 0" at the extractor is false on this input. -/
theorem extractor_missing_size_not_zero :
    extract_rows
        [⟨some ⟨some ⟨some (JVal.s "1"), some (JVal.s "t"),
            some [⟨some (JVal.s "http://x/a.bin"), none⟩]⟩⟩⟩]
      = [⟨some (JVal.s "1"), JVal.s "t", some (JVal.s "http://x/a.bin"), none⟩]
    ∧ (none : Option JVal) ≠ some (JVal.n 0) := by
  constructor
  · rfl
  · decide

/-- C4 (amended): the download engine defaults a missing, blank or
non-numeric declared size to 0 without erroring the row, and parses a
numeric string to its value; the record extractor defaults a missing title
to the empty string but passes the declared size through unchanged. -/
theorem declared_size_and_title_defaults :
    parse_file_size none = 0 ∧
    parse_file_size (some "") = 0 ∧
    (∀ s, parsePyInt s = none → parse_file_size (some s) = 0) ∧
    (∀ s k, s ≠ "" → parsePyInt s = some k → parse_file_size (some s) = k) ∧
    (∀ (naid title : Option JVal) (dobjs : List DigitalObject),
        extract_rows [⟨some ⟨some ⟨naid, title, some dobjs⟩⟩⟩]
          = dobjs.map (fun d =>
              ⟨naid, title.getD (JVal.s ""), d.objectUrl, d.objectFileSize⟩)) := by
  refine ⟨by decide, by decide, ?_, ?_, ?_⟩
  · intro s h
    by_cases hs : s = ""
    · subst hs; decide
    · simp [parse_file_size, csvSizeField, hs, h]
  · intro s k hs h
    simp [parse_file_size, csvSizeField, hs, h]
  · intro naid title dobjs
    simp [extract_rows]

/-- Witness for C4 (amended): the engine parses the non-numeric size string
`"abc"` to 0, via the claim's theorem. -/
theorem declared_size_and_title_defaults_witness :
    parse_file_size (some "abc") = 0 :=
  declared_size_and_title_defaults.2.2.1 "abc" (by decide)

/-! ## Claim C7 -/

lemma findSubdirFrom_spec (pathExists : String → Bool) (basedir today_str : String) :
    ∀ (k i fuel : ℕ),
      (∀ j, i ≤ j → j < i + k →
        pathExists (pyJoin basedir (today_str ++ "-" ++ toString j)) = true) →
      pathExists (pyJoin basedir (today_str ++ "-" ++ toString (i + k))) = false →
      k < fuel →
      findSubdirFrom pathExists basedir today_str fuel i
        = some (pyJoin basedir (today_str ++ "-" ++ toString (i + k)))
  | 0, i, fuel + 1, _, hfree, _ => by
    have h : pathExists (pyJoin basedir (today_str ++ "-" ++ toString i)) = false := by
      simpa using hfree
    simp [findSubdirFrom, h]
  | k + 1, i, fuel + 1, hused, hfree, hfuel => by
    have h0 : pathExists (pyJoin basedir (today_str ++ "-" ++ toString i)) = true :=
      hused i le_rfl (by omega)
    rw [findSubdirFrom]
    simp only [h0, if_true]
    have := findSubdirFrom_spec pathExists basedir today_str k (i + 1) fuel
      (fun j h1 h2 => hused j (by omega) (by omega))
      (by rw [show i + 1 + k = i + (k + 1) by omega]; exact hfree)
      (by omega)
    rw [this, show i + 1 + k = i + (k + 1) by omega]

/-- C7: the output directory allocator never reuses an existing name: if the
base directory contains exactly the same-day directories numbered 1..N (so
the names 1..N exist and name N+1 does not), the allocator — which starts
at 1 and increments — returns the path for sequence number N+1, a path that
did not exist, and creating it with `os.makedirs` makes it and its missing
parents (in particular the base directory) exist. -/
theorem allocator_returns_first_free :
    ∀ (N : ℕ) (pathExists : String → Bool) (basedir today_str : String),
      (∀ i, 1 ≤ i → i ≤ N →
        pathExists (pyJoin basedir (today_str ++ "-" ++ toString i)) = true) →
      pathExists (pyJoin basedir (today_str ++ "-" ++ toString (N + 1))) = false →
      find_download_subdir pathExists basedir today_str (N + 1)
          = some (pyJoin basedir (today_str ++ "-" ++ toString (N + 1))) ∧
      makedirs pathExists (pyJoin basedir (today_str ++ "-" ++ toString (N + 1)))
          (pyJoin basedir (today_str ++ "-" ++ toString (N + 1))) = true ∧
      makedirs pathExists (pyJoin basedir (today_str ++ "-" ++ toString (N + 1)))
          basedir = true := by
  intro N pathExists basedir today_str hused hfree
  refine ⟨?_, ?_, ?_⟩
  · have := findSubdirFrom_spec pathExists basedir today_str N 1 (N + 1)
      (fun j h1 h2 => hused j h1 (by omega)) (by simpa [Nat.add_comm] using hfree)
      (by omega)
    simpa [find_download_subdir, Nat.add_comm] using this
  · simp [makedirs]
  · have hdata : (pyJoin basedir (today_str ++ "-" ++ toString (N + 1))).data
        = (basedir.data ++ "/".data) ++ (today_str ++ "-" ++ toString (N + 1)).data := by
      show ((basedir ++ "/") ++ (today_str ++ "-" ++ toString (N + 1))).data = _
      rw [String.data_append, String.data_append]
    simp only [makedirs, Bool.or_eq_true, List.isPrefixOf_iff_prefix]
    right
    rw [hdata]
    exact List.prefix_append _ _

/-- Witness for C7: with exactly `20260101-1` present under `downloads`, the
allocator returns `downloads/20260101-2`, via the claim's theorem. -/
theorem allocator_returns_first_free_witness :
    find_download_subdir (fun q => q == "downloads/20260101-1") "downloads" "20260101" 2
        = some (pyJoin "downloads" ("20260101" ++ "-" ++ toString 2)) ∧
    makedirs (fun q => q == "downloads/20260101-1")
        (pyJoin "downloads" ("20260101" ++ "-" ++ toString 2))
        (pyJoin "downloads" ("20260101" ++ "-" ++ toString 2)) = true ∧
    makedirs (fun q => q == "downloads/20260101-1")
        (pyJoin "downloads" ("20260101" ++ "-" ++ toString 2)) "downloads" = true :=
  allocator_returns_first_free 1 _ "downloads" "20260101"
    (fun i h1 h2 => by
      have : i = 1 := by omega
      subst this
      decide)
    (by decide)

/-! ## Claim C8 -/

/-- C8 counterexample: with the API key present but the batch file missing,
the metadata program terminates with an error only after `os.makedirs` has
created the output directory — a file-system side effect precedes the
fatal-precondition exit, contrary to the claim. -/
theorem startup_side_effect_before_batch_check :
    metadata_startup (some "key") "results" (some "batch.txt") (fun _ => none) none
        = ([FsEvent.mkdir "results"], none) ∧
    ([FsEvent.mkdir "results"] : List FsEvent) ≠ [] := by
  exact ⟨rfl, by decide⟩

/-- C8 (amended): a missing credential aborts the metadata program before any
side effect; a missing batch file aborts it before any network request but
after the output directory has been created; an empty batch file is not
treated as an error (the run proceeds with an empty target list); and the
download program exits on an unreadable or empty CSV before any side
effect. -/
theorem startup_precondition_ordering :
    (∀ outdir batch readBatch naid,
        metadata_startup none outdir batch readBatch naid = ([], none)) ∧
    (∀ (k outdir bpath : String) readBatch naid, readBatch bpath = none →
        metadata_startup (some k) outdir (some bpath) readBatch naid
          = ([FsEvent.mkdir outdir], none)) ∧
    (∀ (k outdir bpath : String) readBatch naid, readBatch bpath = some [] →
        metadata_startup (some k) outdir (some bpath) readBatch naid
          = ([FsEvent.mkdir outdir], some [])) ∧
    binaries_startup none = ([], none) ∧
    binaries_startup (some []) = ([], none) := by
  refine ⟨fun _ _ _ _ => rfl, ?_, ?_, rfl, rfl⟩
  · intro k outdir bpath readBatch naid h
    simp [metadata_startup, h]
  · intro k outdir bpath readBatch naid h
    simp [metadata_startup, h]

/-- Witness for C8 (amended): a concrete missing-credential run performs no
side effect, via the claim's theorem. -/
theorem startup_precondition_ordering_witness :
    metadata_startup none "results" none (fun _ => none) (some ["720246"])
      = ([], none) :=
  startup_precondition_ordering.1 "results" none (fun _ => none) (some ["720246"])

/-! ## Lemmas about the rounding model -/

lemma rhe_intCast (m : ℤ) : rhe (m : ℚ) = m := by
  unfold rhe
  rw [Int.floor_intCast]
  norm_num

lemma floor_le_rhe (q : ℚ) : ⌊q⌋ ≤ rhe q := by
  unfold rhe
  split_ifs <;> omega

lemma rhe_le_floor_add_one (q : ℚ) : rhe q ≤ ⌊q⌋ + 1 := by
  unfold rhe
  split_ifs <;> omega

lemma rhe_le (q : ℚ) : (rhe q : ℚ) ≤ q + 1/2 := by
  have hf := Int.floor_le q
  unfold rhe
  split_ifs with h1 h2 h3
  · linarith
  · push_cast
    linarith
  · linarith
  · have h1' := not_lt.mp h1
    push_cast
    linarith

lemma rhe_ge (q : ℚ) : q - 1/2 ≤ (rhe q : ℚ) := by
  have hf2 := Int.sub_one_lt_floor q
  unfold rhe
  split_ifs with h1 h2 h3
  · linarith
  · push_cast
    linarith
  · have h2' := not_lt.mp h2
    linarith
  · push_cast
    linarith

lemma rhe_eq_floor_add_one_of (q : ℚ) (h1 : 1/2 ≤ q - ⌊q⌋)
    (h2 : q - ⌊q⌋ = 1/2 → ⌊q⌋ % 2 = 1) : rhe q = ⌊q⌋ + 1 := by
  unfold rhe
  split_ifs with ha hb hc
  · linarith
  · rfl
  · exfalso
    have ht : q - ⌊q⌋ = 1/2 := le_antisymm (not_lt.mp hb) h1
    have := h2 ht
    omega
  · rfl

lemma half_zpow (e : ℤ) : (2:ℚ) ^ (e - 52) / 2 = 2 ^ (e - 53) := by
  have h : e - 52 = (e - 53) + 1 := by omega
  rw [h, zpow_add_one₀ (two_ne_zero : (2:ℚ) ≠ 0)]
  ring

lemma floatRound_of_pos {q : ℚ} (hq : 0 < q) :
    floatRound q = (rhe (q / 2 ^ (Int.log 2 q - 52)) : ℚ) * 2 ^ (Int.log 2 q - 52) := by
  rw [floatRound, if_neg (not_le.mpr hq)]

lemma zpow_log_le {q : ℚ} (hq : 0 < q) : (2:ℚ) ^ Int.log 2 q ≤ q := by
  simpa using Int.zpow_log_le_self (b := 2) (R := ℚ) (by norm_num) hq

lemma lt_zpow_log_succ (q : ℚ) : q < (2:ℚ) ^ (Int.log 2 q + 1) := by
  simpa using Int.lt_zpow_succ_log_self (b := 2) (R := ℚ) (by norm_num) q

lemma floatRound_le_add {q : ℚ} (hq : 0 < q) :
    floatRound q ≤ q + 2 ^ (Int.log 2 q - 53) := by
  set e := Int.log 2 q with he
  have hc : (0:ℚ) < 2 ^ (e - 52) := zpow_pos (by norm_num) _
  rw [floatRound_of_pos hq]
  calc (rhe (q / 2 ^ (e - 52)) : ℚ) * 2 ^ (e - 52)
      ≤ (q / 2 ^ (e - 52) + 1/2) * 2 ^ (e - 52) :=
        mul_le_mul_of_nonneg_right (rhe_le _) hc.le
    _ = q + 2 ^ (e - 52) / 2 := by
        field_simp
        ring
    _ = q + 2 ^ (e - 53) := by rw [half_zpow]

lemma sub_le_floatRound {q : ℚ} (hq : 0 < q) :
    q - 2 ^ (Int.log 2 q - 53) ≤ floatRound q := by
  set e := Int.log 2 q with he
  have hc : (0:ℚ) < 2 ^ (e - 52) := zpow_pos (by norm_num) _
  rw [floatRound_of_pos hq]
  calc q - 2 ^ (e - 53)
      = q - 2 ^ (e - 52) / 2 := by rw [half_zpow]
    _ = (q / 2 ^ (e - 52) - 1/2) * 2 ^ (e - 52) := by
        field_simp
        ring
    _ ≤ (rhe (q / 2 ^ (e - 52)) : ℚ) * 2 ^ (e - 52) :=
        mul_le_mul_of_nonneg_right (rhe_ge _) hc.le

lemma floatRound_ge_zpow {q : ℚ} (hq : 0 < q) :
    (2:ℚ) ^ Int.log 2 q ≤ floatRound q := by
  set e := Int.log 2 q with he
  have hc : (0:ℚ) < 2 ^ (e - 52) := zpow_pos (by norm_num) _
  have hm : (2:ℚ) ^ (52:ℤ) ≤ q / 2 ^ (e - 52) := by
    rw [le_div_iff₀ hc, ← zpow_add₀ (two_ne_zero : (2:ℚ) ≠ 0)]
    calc (2:ℚ) ^ (52 + (e - 52)) = 2 ^ e := by norm_num
      _ ≤ q := zpow_log_le hq
  have hfl : (2 ^ 52 : ℤ) ≤ ⌊q / 2 ^ (e - 52)⌋ := by
    apply Int.le_floor.mpr
    calc ((2 ^ 52 : ℤ) : ℚ) = (2:ℚ) ^ (52:ℤ) := by norm_num
      _ ≤ _ := hm
  have hrh : (2 ^ 52 : ℤ) ≤ rhe (q / 2 ^ (e - 52)) := le_trans hfl (floor_le_rhe _)
  rw [floatRound_of_pos hq]
  calc (2:ℚ) ^ e = 2 ^ (52:ℤ) * 2 ^ (e - 52) := by
        rw [← zpow_add₀ (two_ne_zero : (2:ℚ) ≠ 0)]
        norm_num
    _ ≤ (rhe (q / 2 ^ (e - 52)) : ℚ) * 2 ^ (e - 52) := by
        apply mul_le_mul_of_nonneg_right _ hc.le
        calc (2:ℚ) ^ (52:ℤ) = ((2 ^ 52 : ℤ) : ℚ) := by norm_num
          _ ≤ _ := by exact_mod_cast hrh

lemma floatRound_le_zpow_succ {q : ℚ} (hq : 0 < q) :
    floatRound q ≤ (2:ℚ) ^ (Int.log 2 q + 1) := by
  set e := Int.log 2 q with he
  have hc : (0:ℚ) < 2 ^ (e - 52) := zpow_pos (by norm_num) _
  have hm : q / 2 ^ (e - 52) < (2:ℚ) ^ (53:ℤ) := by
    rw [div_lt_iff₀ hc, ← zpow_add₀ (two_ne_zero : (2:ℚ) ≠ 0)]
    calc q < 2 ^ (e + 1) := lt_zpow_log_succ q
      _ = (2:ℚ) ^ (53 + (e - 52)) := by
        congr 1
        omega
  have hfl : ⌊q / 2 ^ (e - 52)⌋ < 2 ^ 53 := by
    apply Int.floor_lt.mpr
    calc q / 2 ^ (e - 52) < (2:ℚ) ^ (53:ℤ) := hm
      _ = ((2 ^ 53 : ℤ) : ℚ) := by norm_num
  have hrh : rhe (q / 2 ^ (e - 52)) ≤ 2 ^ 53 :=
    le_trans (rhe_le_floor_add_one _) (by omega)
  rw [floatRound_of_pos hq]
  calc (rhe (q / 2 ^ (e - 52)) : ℚ) * 2 ^ (e - 52)
      ≤ (2:ℚ) ^ (53:ℤ) * 2 ^ (e - 52) := by
        apply mul_le_mul_of_nonneg_right _ hc.le
        calc (rhe (q / 2 ^ (e - 52)) : ℚ) ≤ ((2 ^ 53 : ℤ) : ℚ) := by exact_mod_cast hrh
          _ = (2:ℚ) ^ (53:ℤ) := by norm_num
    _ = 2 ^ (e + 1) := by
        rw [← zpow_add₀ (two_ne_zero : (2:ℚ) ≠ 0)]
        congr 1
        omega

lemma floatRound_pos {q : ℚ} (hq : 0 < q) : 0 < floatRound q :=
  lt_of_lt_of_le (zpow_pos (by norm_num) _) (floatRound_ge_zpow hq)

lemma floatRound_intCast {k : ℤ} (h1 : 1 ≤ k) (h2 : k ≤ 2 ^ 53) :
    floatRound (k : ℚ) = k := by
  have hq : (0:ℚ) < (k : ℚ) := by exact_mod_cast h1
  set e := Int.log 2 (k : ℚ) with he
  have hc : (0:ℚ) < 2 ^ (e - 52) := zpow_pos (by norm_num) _
  have hlow : (2:ℚ) ^ e ≤ (k : ℚ) := zpow_log_le hq
  have hup : (k : ℚ) < 2 ^ (e + 1) := lt_zpow_log_succ _
  have he0 : 0 ≤ e := by
    by_contra h
    push_neg at h
    have hle : (2:ℚ) ^ (e + 1) ≤ 2 ^ (0:ℤ) :=
      zpow_le_zpow_right₀ (by norm_num) (by omega)
    have : (k : ℚ) < 1 := by
      have := lt_of_lt_of_le hup hle
      simpa using this
    have : k < 1 := by exact_mod_cast this
    omega
  have he53 : e ≤ 53 := by
    by_contra h
    push_neg at h
    have h54 : (2:ℚ) ^ (54:ℤ) ≤ 2 ^ e := zpow_le_zpow_right₀ (by norm_num) (by omega)
    have hk54 : (2:ℚ) ^ (54:ℤ) ≤ (k : ℚ) := le_trans h54 hlow
    have : ((2 ^ 54 : ℤ) : ℚ) ≤ (k : ℚ) := by
      calc ((2 ^ 54 : ℤ) : ℚ) = (2:ℚ) ^ (54:ℤ) := by norm_num
        _ ≤ _ := hk54
    have : (2 ^ 54 : ℤ) ≤ k := by exact_mod_cast this
    have : (2 ^ 54 : ℤ) ≤ 2 ^ 53 := le_trans this h2
    norm_num at this
  obtain ⟨z, hz⟩ : ∃ z : ℤ, (k : ℚ) / 2 ^ (e - 52) = (z : ℚ) := by
    rcases le_or_lt e 52 with hcase | hcase
    · refine ⟨k * 2 ^ ((52 - e).toNat), ?_⟩
      have hexp : ((52 - e).toNat : ℤ) = 52 - e := Int.toNat_of_nonneg (by omega)
      push_cast
      rw [div_eq_iff hc.ne', mul_assoc, ← zpow_natCast (2:ℚ), hexp,
        ← zpow_add₀ (two_ne_zero : (2:ℚ) ≠ 0)]
      norm_num
    · have he' : e = 53 := by omega
      have hk : (k : ℚ) = 2 ^ (53:ℤ) := by
        have hge : (2:ℚ) ^ (53:ℤ) ≤ (k : ℚ) := by rw [← he']; exact hlow
        have hle : (k : ℚ) ≤ 2 ^ (53:ℤ) := by
          calc (k : ℚ) ≤ ((2 ^ 53 : ℤ) : ℚ) := by exact_mod_cast h2
            _ = (2:ℚ) ^ (53:ℤ) := by norm_num
        exact le_antisymm hle hge
      refine ⟨2 ^ 52, ?_⟩
      rw [hk, he']
      push_cast
      norm_num
  rw [floatRound_of_pos hq, hz, rhe_intCast, ← hz]
  field_simp

/-- The central exactness fact for claim C3: on the range the harvester can
actually see (`total_records ≤ 2^53`), `math.ceil` of the binary64 quotient
equals the exact mathematical ceiling. -/
lemma ceil_pyTrueDiv (a b : ℤ) (ha1 : 1 ≤ a) (ha : a ≤ 2 ^ 53) (hb : 1 ≤ b) :
    ⌈pyTrueDiv a b⌉ = ⌈(a : ℚ) / (b : ℚ)⌉ := by
  have hb0 : (0:ℚ) < (b : ℚ) := by exact_mod_cast hb
  have ha0 : (0:ℚ) < (a : ℚ) := by exact_mod_cast ha1
  set x : ℚ := (a : ℚ) / (b : ℚ) with hx
  have hxpos : 0 < x := div_pos ha0 hb0
  by_cases hdvd : b ∣ a
  · obtain ⟨k, hk⟩ := hdvd
    have hk1 : 1 ≤ k := by nlinarith
    have hk2 : k ≤ 2 ^ 53 := by nlinarith
    have hxk : x = (k : ℚ) := by
      rw [hx, hk]
      push_cast
      field_simp
    rw [pyTrueDiv, ← hx, hxk, floatRound_intCast hk1 hk2]
  · set k := a / b with hkdef
    set r := a % b with hrdef
    have hdecomp : b * k + r = a := Int.ediv_add_emod a b
    have hr0 : 0 < r := by
      rcases lt_or_eq_of_le (Int.emod_nonneg a (by omega : b ≠ 0)) with h | h
      · exact h
      · exact absurd (Int.dvd_of_emod_eq_zero h.symm) hdvd
    have hrb : r < b := Int.emod_lt_of_pos a (by omega)
    have hxk : x = (k : ℚ) + (r : ℚ) / (b : ℚ) := by
      rw [hx]
      field_simp
      push_cast [← hdecomp]
      ring
    have hrblow : (1:ℚ) / (b:ℚ) ≤ (r : ℚ) / (b : ℚ) := by
      gcongr
      exact_mod_cast hr0
    have hrbhigh : (r : ℚ) / (b : ℚ) ≤ 1 - 1 / (b:ℚ) := by
      rw [div_le_iff₀ hb0]
      have hr1 : (r : ℚ) ≤ (b : ℚ) - 1 := by
        have h : r ≤ b - 1 := by omega
        exact_mod_cast h
      calc (r:ℚ) ≤ (b:ℚ) - 1 := hr1
        _ = (1 - 1/(b:ℚ)) * (b:ℚ) := by field_simp
    have hb1 : (0:ℚ) < 1 / (b:ℚ) := by positivity
    have hceilx : ⌈x⌉ = k + 1 := by
      apply Int.ceil_eq_iff.mpr
      constructor
      · push_cast
        rw [hxk]
        linarith
      · push_cast
        rw [hxk]
        linarith
    set e := Int.log 2 x with hedef
    rcases lt_or_le e 0 with he | he
    · have hx1 : x < 1 := by
        have h1 := lt_zpow_log_succ x
        have hle : (2:ℚ) ^ (e + 1) ≤ 2 ^ (0:ℤ) :=
          zpow_le_zpow_right₀ (by norm_num) (by omega)
        have : x < 2 ^ (0:ℤ) := lt_of_lt_of_le h1 hle
        simpa using this
      have hk0 : k = 0 := by
        have hkx : (k:ℚ) < x := by
          rw [hxk]
          linarith
        have hklt : (k:ℚ) < 1 := lt_trans hkx hx1
        have hklt' : k < 1 := by exact_mod_cast hklt
        have hknn : 0 ≤ k := Int.ediv_nonneg (by omega) (by omega)
        omega
      have hfr1 : floatRound x ≤ 1 := by
        have h1 := floatRound_le_zpow_succ hxpos
        have hle : (2:ℚ) ^ (e + 1) ≤ 2 ^ (0:ℤ) :=
          zpow_le_zpow_right₀ (by norm_num) (by omega)
        have : floatRound x ≤ 2 ^ (0:ℤ) := le_trans h1 hle
        simpa using this
      have hfr0 : 0 < floatRound x := floatRound_pos hxpos
      rw [pyTrueDiv, ← hx, hceilx, hk0]
      exact Int.ceil_eq_iff.mpr ⟨by push_cast; linarith, by push_cast; linarith⟩
    · have hkey : (b:ℚ) * 2 ^ e < 2 ^ (53:ℤ) := by
        have h2e : (2:ℚ) ^ e ≤ x := zpow_log_le hxpos
        have h1 : (b:ℚ) * 2 ^ e ≤ (a:ℚ) := by
          calc (b:ℚ) * 2 ^ e ≤ (b:ℚ) * x := mul_le_mul_of_nonneg_left h2e hb0.le
            _ = a := by
                rw [hx]
                field_simp
        rcases lt_or_eq_of_le h1 with hlt | heq
        · calc (b:ℚ) * 2 ^ e < (a:ℚ) := hlt
            _ ≤ ((2 ^ 53 : ℤ) : ℚ) := by exact_mod_cast ha
            _ = (2:ℚ) ^ (53:ℤ) := by norm_num
        · exfalso
          have hE : ((2 ^ e.toNat : ℤ) : ℚ) = (2:ℚ) ^ e := by
            push_cast
            rw [← zpow_natCast (2:ℚ), Int.toNat_of_nonneg he]
          have hcast : ((b * 2 ^ e.toNat : ℤ) : ℚ) = (a : ℚ) := by
            calc ((b * 2 ^ e.toNat : ℤ) : ℚ)
                = (b:ℚ) * ((2 ^ e.toNat : ℤ) : ℚ) := by push_cast; ring
              _ = (b:ℚ) * 2 ^ e := by rw [hE]
              _ = a := heq
          have hab : b * 2 ^ e.toNat = a := by exact_mod_cast hcast
          exact hdvd ⟨2 ^ e.toNat, hab.symm⟩
      have herr : (2:ℚ) ^ (e - 53) < 1 / (b:ℚ) := by
        have hsplit : (2:ℚ) ^ (e - 53) = 2 ^ e / 2 ^ (53:ℤ) :=
          zpow_sub₀ (two_ne_zero : (2:ℚ) ≠ 0) e 53
        rw [hsplit, div_lt_div_iff₀ (zpow_pos (by norm_num) _) hb0]
        nlinarith [hkey]
      have hfrlow : (k:ℚ) < floatRound x := by
        have h1 := sub_le_floatRound hxpos
        have hxlow : (k:ℚ) + 1/(b:ℚ) ≤ x := by
          rw [hxk]
          linarith
        linarith
      have hfrhigh : floatRound x < (k:ℚ) + 1 := by
        have h1 := floatRound_le_add hxpos
        have hxhigh : x ≤ (k:ℚ) + 1 - 1/(b:ℚ) := by
          rw [hxk]
          linarith
        linarith
      rw [pyTrueDiv, ← hx, hceilx]
      exact Int.ceil_eq_iff.mpr ⟨by push_cast; linarith, by push_cast; linarith⟩

/-! ## Pagination loop lemmas -/

lemma run_total_pages_exact {total limit : ℤ} (h1 : 1 ≤ total) (h2 : total ≤ 2 ^ 53)
    (hl : 1 ≤ limit) :
    run_total_pages total limit = ⌈(total : ℚ) / (limit : ℚ)⌉ :=
  ceil_pyTrueDiv total limit h1 h2 hl

lemma fetchPages_all (fetch : ℕ → Option ApiResponse) (tp : ℤ) (now_str : String)
    (g : ℕ → ApiResponse) :
    ∀ l : List ℕ, (∀ p ∈ l, fetch p = some (g p)) →
      fetchPages fetch tp now_str l
        = ⟨l, l.map (fun p => (page_filename p tp now_str, g p)), none,
            l.flatMap (fun p => get_hits (g p))⟩
  | [], _ => by simp [fetchPages]
  | p :: rest, h => by
    have hp : fetch p = some (g p) := h p (List.mem_cons_self p rest)
    have ih := fetchPages_all fetch tp now_str g rest
      (fun q hq => h q (List.mem_cons_of_mem _ hq))
    simp [fetchPages, hp, ih]

lemma fetchPages_break (fetch : ℕ → Option ApiResponse) (tp : ℤ) (now_str : String)
    (g : ℕ → ApiResponse) (k : ℕ) (hk : fetch k = none) :
    ∀ l1 l2 : List ℕ, (∀ p ∈ l1, fetch p = some (g p)) →
      fetchPages fetch tp now_str (l1 ++ k :: l2)
        = ⟨l1 ++ [k], l1.map (fun p => (page_filename p tp now_str, g p)), none,
            l1.flatMap (fun p => get_hits (g p))⟩
  | [], l2, _ => by simp [fetchPages, hk]
  | p :: rest, l2, h => by
    have hp : fetch p = some (g p) := h p (List.mem_cons_self p rest)
    have ih := fetchPages_break fetch tp now_str g k hk rest l2
      (fun q hq => h q (List.mem_cons_of_mem _ hq))
    simp [fetchPages, hp, ih]

lemma extract_rows_flatMap {α : Type} (f : α → List Hit) :
    ∀ l : List α, extract_rows (l.flatMap f) = l.flatMap (fun a => extract_rows (f a))
  | [] => by simp [extract_rows]
  | a :: t => by
    rw [List.flatMap_cons, extract_rows_append, extract_rows_flatMap f t,
      List.flatMap_cons]

/-! ## Claim C3 -/

/-- C3 counterexample: when page 1 reports `total_record_count = 0` (a value
allowed by the claim's "every total_record_count ≥ 0"), the harvester has
already made one fetch attempt — page 1 — although
`ceil(total_record_count / limit) = 0`, so "exactly total_pages fetch
attempts" is false at this input. -/
theorem harvester_zero_total_still_fetches_page1 :
    (harvest (fun _ => some (onePage 0 [])) 1 "20260101").attempts = [1] ∧
    (([1] : List ℕ)).length ≠ (⌈(0 : ℚ) / (1 : ℚ)⌉).toNat := by
  constructor
  · rfl
  · norm_num

/-- C3 (amended): for `1 ≤ total_record_count ≤ 2^53` (the float-exact range;
page 1 reporting 0 records instead exits after the single page-1 fetch) and
any `limit ≥ 1`, the page count computed once from page 1 equals
`ceil(total_record_count / limit)` exactly, is unaffected by what any later
page reports, and — absent failures — the fetch attempts are exactly pages
`1, 2, ..., total_pages`, in strictly increasing order. -/
theorem harvester_page_count_and_attempts :
    ∀ (fetch : ℕ → Option ApiResponse) (limit total : ℤ) (d1 : ApiResponse)
      (g : ℕ → ApiResponse) (now_str : String),
      1 ≤ limit → 1 ≤ total → total ≤ 2 ^ 53 →
      fetch 1 = some d1 → get_total_records d1 = total →
      (∀ p, 2 ≤ p → fetch p = some (g p)) →
      (harvest fetch limit now_str).total_pages = some ⌈(total : ℚ) / (limit : ℚ)⌉ ∧
      (harvest fetch limit now_str).attempts
        = List.range' 1 (⌈(total : ℚ) / (limit : ℚ)⌉).toNat ∧
      (harvest fetch limit now_str).attempts.Pairwise (· < ·) := by
  intro fetch limit total d1 g now_str hl ht1 ht2 h1 hT hgood
  have hT0 : ¬ get_total_records d1 = 0 := by omega
  have htp : run_total_pages (get_total_records d1) limit = ⌈(total : ℚ) / (limit : ℚ)⌉ := by
    rw [hT]
    exact run_total_pages_exact ht1 ht2 hl
  have htp1 : 1 ≤ ⌈(total : ℚ) / (limit : ℚ)⌉ := by
    have hpos : (0:ℚ) < (total : ℚ) / (limit : ℚ) := by
      apply div_pos <;> exact_mod_cast (by omega : (0:ℤ) < _)
    have := Int.ceil_pos.mpr hpos
    omega
  set tp := ⌈(total : ℚ) / (limit : ℚ)⌉ with htpdef
  have hall : ∀ p ∈ List.range' 2 (tp - 1).toNat, fetch p = some (g p) := by
    intro p hp
    exact hgood p (List.mem_range'_1.mp hp).1
  have hloop := fetchPages_all fetch tp now_str g _ hall
  have hh : harvest fetch limit now_str
      = ⟨1 :: List.range' 2 (tp - 1).toNat,
          (page_filename 1 tp now_str, d1)
            :: (List.range' 2 (tp - 1).toNat).map
                (fun p => (page_filename p tp now_str, g p)),
          some tp,
          get_hits d1
            ++ (List.range' 2 (tp - 1).toNat).flatMap (fun p => get_hits (g p))⟩ := by
    simp only [harvest, h1, if_neg hT0, htp, hloop]
  rw [hh]
  have hrange : List.range' 1 tp.toNat = 1 :: List.range' 2 (tp - 1).toNat := by
    have hsucc : tp.toNat = (tp - 1).toNat + 1 := by omega
    rw [hsucc, List.range'_succ]
  refine ⟨rfl, ?_, ?_⟩
  · rw [hrange]
  · rw [show (⟨1 :: List.range' 2 (tp - 1).toNat, _, _, _⟩ : HarvestResult).attempts
        = 1 :: List.range' 2 (tp - 1).toNat from rfl, ← hrange]
    exact List.pairwise_lt_range' 1 tp.toNat

/-- Witness for C3 (amended): 7 records at 2 per page give page count
`ceil(7/2) = 4` and attempts `[1, 2, 3, 4]`, via the claim's theorem. -/
theorem harvester_page_count_and_attempts_witness :
    (harvest (fun _ => some (onePage 7 [])) 2 "20260101").total_pages
        = some ⌈(7 : ℚ) / (2 : ℚ)⌉ ∧
    (harvest (fun _ => some (onePage 7 [])) 2 "20260101").attempts
        = List.range' 1 (⌈(7 : ℚ) / (2 : ℚ)⌉).toNat ∧
    (harvest (fun _ => some (onePage 7 [])) 2 "20260101").attempts.Pairwise (· < ·) :=
  harvester_page_count_and_attempts (fun _ => some (onePage 7 [])) 2 7 (onePage 7 [])
    (fun _ => onePage 7 []) "20260101" (by norm_num) (by norm_num) (by norm_num)
    rfl rfl (fun _ _ => rfl)

/-! ## Claim C2 -/

/-- C2: if fetching or parsing page `k` (any `2 ≤ k ≤ total_pages`) fails,
the harvester's fetch attempts are exactly pages `1..k` (nothing after `k`
is attempted), the accumulated hits are exactly those of pages `1..k-1`, and
the final extraction is exactly the concatenation of the rows extracted from
pages `1..k-1` — partial results are retained. -/
theorem harvester_partial_failure_containment :
    ∀ (fetch : ℕ → Option ApiResponse) (limit : ℤ) (d1 : ApiResponse)
      (g : ℕ → ApiResponse) (now_str : String) (k : ℕ),
      fetch 1 = some d1 → get_total_records d1 ≠ 0 →
      2 ≤ k → (k : ℤ) ≤ run_total_pages (get_total_records d1) limit →
      (∀ p, 2 ≤ p → p < k → fetch p = some (g p)) →
      fetch k = none →
      (harvest fetch limit now_str).attempts = List.range' 1 k ∧
      (harvest fetch limit now_str).all_hits
        = get_hits d1 ++ (List.range' 2 (k - 2)).flatMap (fun p => get_hits (g p)) ∧
      extract_rows (harvest fetch limit now_str).all_hits
        = extract_rows (get_hits d1)
          ++ (List.range' 2 (k - 2)).flatMap
              (fun p => extract_rows (get_hits (g p))) := by
  intro fetch limit d1 g now_str k h1 hT0 hk2 hktp hgood hfail
  set tp := run_total_pages (get_total_records d1) limit with htpdef
  set R := (tp - 1).toNat - (k - 1) with hRdef
  have hsplit : List.range' 2 (tp - 1).toNat
      = List.range' 2 (k - 2) ++ k :: List.range' (k + 1) R := by
    have hR : (tp - 1).toNat = (R + 1) + (k - 2) := by omega
    rw [hR, ← List.range'_append 2 (k - 2) (R + 1) 1]
    have h2k : 2 + 1 * (k - 2) = k := by omega
    rw [h2k, List.range'_succ]
  have hgood' : ∀ p ∈ List.range' 2 (k - 2), fetch p = some (g p) := by
    intro p hp
    have hm := List.mem_range'_1.mp hp
    exact hgood p hm.1 (by omega)
  have hloop := fetchPages_break fetch tp now_str g k hfail
    (List.range' 2 (k - 2)) (List.range' (k + 1) R) hgood'
  have hh : harvest fetch limit now_str
      = ⟨1 :: (List.range' 2 (k - 2) ++ [k]),
          (page_filename 1 tp now_str, d1)
            :: (List.range' 2 (k - 2)).map
                (fun p => (page_filename p tp now_str, g p)),
          some tp,
          get_hits d1
            ++ (List.range' 2 (k - 2)).flatMap (fun p => get_hits (g p))⟩ := by
    simp only [harvest, h1, if_neg hT0, ← htpdef, hsplit, hloop]
  rw [hh]
  have hrange : List.range' 1 k = 1 :: (List.range' 2 (k - 2) ++ [k]) := by
    have hk1 : k = (k - 1) + 1 := by omega
    have h1' : List.range' 1 k = 1 :: List.range' 2 (k - 1) := by
      conv_lhs => rw [hk1]
      rw [List.range'_succ]
    have h2' : List.range' 2 (k - 1) = List.range' 2 (k - 2) ++ [k] := by
      have hk2' : k - 1 = 1 + (k - 2) := by omega
      rw [hk2', ← List.range'_append 2 (k - 2) 1 1,
        show 2 + 1 * (k - 2) = k from by omega, List.range'_one]
    rw [h1', h2']
  refine ⟨hrange.symm, rfl, ?_⟩
  rw [show (⟨1 :: (List.range' 2 (k - 2) ++ [k]), _, _, _⟩ : HarvestResult).all_hits
      = get_hits d1
        ++ (List.range' 2 (k - 2)).flatMap (fun p => get_hits (g p)) from rfl,
    extract_rows_append, extract_rows_flatMap]

/-- Witness for C2: with 5 records at 1 per page (5 pages) and page 3
failing, pages 1–2 are kept, page 3 is the last attempt, and pages 4–5 are
never fetched, via the claim's theorem. -/
theorem harvester_partial_failure_containment_witness :
    (harvest (fun p => if p = 3 then none else some (onePage 5 [hitNum p])) 1
        "20260101").attempts = List.range' 1 3 ∧
    (harvest (fun p => if p = 3 then none else some (onePage 5 [hitNum p])) 1
        "20260101").all_hits
      = get_hits (onePage 5 [hitNum 1])
        ++ (List.range' 2 (3 - 2)).flatMap
            (fun p => get_hits (onePage 5 [hitNum p])) ∧
    extract_rows (harvest (fun p => if p = 3 then none else some (onePage 5 [hitNum p])) 1
        "20260101").all_hits
      = extract_rows (get_hits (onePage 5 [hitNum 1]))
        ++ (List.range' 2 (3 - 2)).flatMap
            (fun p => extract_rows (get_hits (onePage 5 [hitNum p]))) := by
  have htp : run_total_pages (get_total_records (onePage 5 [hitNum 1])) 1 = 5 := by
    have h := ceil_pyTrueDiv 5 1 (by norm_num) (by norm_num) (by norm_num)
    have h2 : ⌈(5 : ℚ) / (1 : ℚ)⌉ = 5 := by norm_num
    exact h.trans h2
  exact harvester_partial_failure_containment
    (fun p => if p = 3 then none else some (onePage 5 [hitNum p])) 1
    (onePage 5 [hitNum 1]) (fun p => onePage 5 [hitNum p]) "20260101" 3
    rfl (by decide) (by norm_num) (by rw [htp]; norm_num)
    (fun p h2 h3 => by
      have hp : p = 2 := by omega
      subst hp
      rfl)
    rfl

/-! ## Claims C1 and C9 -/

lemma harvest_single_page (fetch : ℕ → Option ApiResponse) (d1 : ApiResponse)
    (limit : ℤ) (now_str : String) (h1 : fetch 1 = some d1)
    (hT0 : get_total_records d1 ≠ 0)
    (htp : run_total_pages (get_total_records d1) limit = 1) :
    harvest fetch limit now_str
      = ⟨[1], [(page_filename 1 1 now_str, d1)], some 1, get_hits d1⟩ := by
  simp only [harvest, h1, if_neg hT0, htp]
  norm_num [fetchPages]

/-- C1 counterexample: with targets `1` and `2` supplied together, the code
issues one combined comma-separated query; a transport that fails for the
combined query (but would serve target `2` perfectly well on its own) makes
the whole batch run exit with nothing processed — target `2`'s pagination is
not an independent unit of failure. -/
theorem batch_failure_aborts_all_targets :
    metadata_run fetchFailsForTarget1 ["1", "2"] 1 "20260101"
        = ⟨[1], [], none, []⟩ ∧
    (metadata_run fetchFailsForTarget1 ["2"] 1 "20260101").all_hits = [hitNum 2] := by
  constructor
  · show harvest (fetchFailsForTarget1 (naid_param_of ["1", "2"])) 1 "20260101" = _
    have hf : fetchFailsForTarget1 (naid_param_of ["1", "2"]) 1 = none := by decide
    simp [harvest, hf]
  · have htp : run_total_pages (get_total_records (onePage 1 [hitNum 2])) 1 = 1 := by
      have h := ceil_pyTrueDiv 1 1 (by norm_num) (by norm_num) (by norm_num)
      have h2 : ⌈(1 : ℚ) / (1 : ℚ)⌉ = 1 := by norm_num
      exact h.trans h2
    have hf : fetchFailsForTarget1 (naid_param_of ["2"]) 1
        = some (onePage 1 [hitNum 2]) := by decide
    have hh := harvest_single_page (fetchFailsForTarget1 (naid_param_of ["2"]))
      (onePage 1 [hitNum 2]) 1 "20260101" hf (by decide) htp
    show (harvest (fetchFailsForTarget1 (naid_param_of ["2"])) 1 "20260101").all_hits = _
    rw [hh]
    decide

/-- C1 (amended): all batch targets are collapsed into a single
comma-separated query value and paginated as one shared unit; a retrieval
failure on page 1 of the combined query aborts the entire run, so no target
is processed — there is no per-target isolation of failures. -/
theorem combined_query_single_unit_of_failure :
    ∀ (fetch : String → ℕ → Option ApiResponse) (naid_list : List String)
      (limit : ℤ) (now_str : String),
      fetch (naid_param_of naid_list) 1 = none →
      metadata_run fetch naid_list limit now_str = ⟨[1], [], none, []⟩ := by
  intro fetch naid_list limit now_str h
  show harvest (fetch (naid_param_of naid_list)) limit now_str = _
  simp [harvest, h]

/-- Witness for C1 (amended): a concrete two-target batch whose combined
query fails on page 1 yields the empty run, via the claim's theorem. -/
theorem combined_query_single_unit_of_failure_witness :
    metadata_run (fun _ _ => none) ["720246", "123456"] 100 "20260101"
      = ⟨[1], [], none, []⟩ :=
  combined_query_single_unit_of_failure (fun _ _ => none) ["720246", "123456"]
    100 "20260101" rfl

/-- C9 counterexample: two runs over the distinct query targets `720246` and
`123456` on the same day produce the same snapshot file name
`searchNaid-metadata-pg1of1-20260101.json` — the name does not encode the
query target, so names of distinct targets do not differ. -/
theorem snapshot_name_collision :
    (["720246"] : List String) ≠ ["123456"] ∧
    (metadata_run (fun _ _ => some samplePage) ["720246"] 1 "20260101").saved.map
        Prod.fst = ["searchNaid-metadata-pg1of1-20260101.json"] ∧
    (metadata_run (fun _ _ => some samplePage) ["123456"] 1 "20260101").saved.map
        Prod.fst = ["searchNaid-metadata-pg1of1-20260101.json"] := by
  have htp : run_total_pages (get_total_records samplePage) 1 = 1 := by
    have h := ceil_pyTrueDiv 1 1 (by norm_num) (by norm_num) (by norm_num)
    have h2 : ⌈(1 : ℚ) / (1 : ℚ)⌉ = 1 := by norm_num
    exact h.trans h2
  have hh := harvest_single_page (fun _ => some samplePage) samplePage 1 "20260101"
    rfl (by decide) htp
  refine ⟨by decide, ?_, ?_⟩ <;>
    · show (harvest (fun _ => some samplePage) 1 "20260101").saved.map Prod.fst = _
      rw [hh]
      decide

/-- C9 (amended): a snapshot's name encodes the page number, the total page
count and the day — but not the query target: any two same-day runs whose
page-1 responses report the same total (and whose later fetches succeed)
write snapshots under identical name sequences, whatever their targets. -/
theorem snapshot_names_independent_of_target :
    ∀ (t1 t2 : List String) (f1 f2 : String → ℕ → Option ApiResponse)
      (limit : ℤ) (now_str : String) (d1 d2 : ApiResponse)
      (g1 g2 : ℕ → ApiResponse),
      f1 (naid_param_of t1) 1 = some d1 → f2 (naid_param_of t2) 1 = some d2 →
      get_total_records d1 = get_total_records d2 →
      (∀ p, 2 ≤ p → f1 (naid_param_of t1) p = some (g1 p)) →
      (∀ p, 2 ≤ p → f2 (naid_param_of t2) p = some (g2 p)) →
      (metadata_run f1 t1 limit now_str).saved.map Prod.fst
        = (metadata_run f2 t2 limit now_str).saved.map Prod.fst := by
  intro t1 t2 f1 f2 limit now_str d1 d2 g1 g2 h1 h2 htot hg1 hg2
  show (harvest (f1 (naid_param_of t1)) limit now_str).saved.map Prod.fst
    = (harvest (f2 (naid_param_of t2)) limit now_str).saved.map Prod.fst
  by_cases hT : get_total_records d1 = 0
  · have hT2 : get_total_records d2 = 0 := htot ▸ hT
    simp [harvest, h1, h2, hT, hT2]
  · have hT2 : ¬ get_total_records d2 = 0 := htot ▸ hT
    set tp := run_total_pages (get_total_records d1) limit with htpdef
    have htp2 : run_total_pages (get_total_records d2) limit = tp := by
      rw [htpdef, htot]
    have hl1 := fetchPages_all (f1 (naid_param_of t1)) tp now_str g1
      (List.range' 2 (tp - 1).toNat)
      (fun p hp => hg1 p (List.mem_range'_1.mp hp).1)
    have hl2 := fetchPages_all (f2 (naid_param_of t2)) tp now_str g2
      (List.range' 2 (tp - 1).toNat)
      (fun p hp => hg2 p (List.mem_range'_1.mp hp).1)
    simp only [harvest, h1, h2, if_neg hT, if_neg hT2, ← htpdef, htp2, hl1, hl2]
    simp [List.map_map, Function.comp_def]

/-- Witness for C9 (amended): two fully successful one-page runs over
distinct targets produce equal snapshot-name sequences, via the claim's
theorem. -/
theorem snapshot_names_independent_of_target_witness :
    (metadata_run (fun _ _ => some samplePage) ["720246"] 5 "20260101").saved.map
        Prod.fst
      = (metadata_run (fun _ _ => some (onePage 1 [hitNum 7])) ["123456"] 5
          "20260101").saved.map Prod.fst :=
  snapshot_names_independent_of_target ["720246"] ["123456"]
    (fun _ _ => some samplePage) (fun _ _ => some (onePage 1 [hitNum 7])) 5 "20260101"
    samplePage (onePage 1 [hitNum 7]) (fun _ => samplePage)
    (fun _ => onePage 1 [hitNum 7]) rfl rfl rfl (fun _ _ => rfl) (fun _ _ => rfl)

/-! ## Lemmas about the `human_readable_size` loop -/

lemma hrLoop_run (m : ℕ) : ∀ (fuel : ℕ) (v : ℚ) (i : ℤ),
    i + m ≤ 8 → m ≤ fuel →
    (∀ j : ℕ, j < m → 1024 ≤ v / 1024 ^ j) → v / 1024 ^ m < 1024 →
    hrLoop fuel v i = (v / 1024 ^ m, i + m) := by
  induction m with
  | zero =>
    intro fuel v i _ _ _ hlt
    simp only [pow_zero, div_one] at hlt
    cases fuel with
    | zero => simp [hrLoop]
    | succ f =>
      rw [hrLoop, if_neg]
      · simp
      · rintro ⟨hge, _⟩
        linarith
  | succ m ih =>
    intro fuel v i hi hf hge hlt
    cases fuel with
    | zero => omega
    | succ f =>
      rw [hrLoop, if_pos ⟨by simpa using hge 0 (by omega), by omega⟩]
      have h1 := ih f (v / 1024) (i + 1) (by push_cast at hi ⊢; omega) (by omega)
        (fun j hj => by
          have h := hge (j + 1) (by omega)
          rw [div_div, ← pow_succ']
          exact h)
        (by
          rw [div_div, ← pow_succ']
          exact hlt)
      rw [h1]
      congr 1
      · rw [div_div, ← pow_succ']
      · push_cast
        ring

lemma hrLoop_sat (m : ℕ) : ∀ (fuel : ℕ) (v : ℚ) (i : ℤ),
    i + m = 8 → m ≤ fuel →
    (∀ j : ℕ, j < m → 1024 ≤ v / 1024 ^ j) →
    hrLoop fuel v i = (v / 1024 ^ m, 8) := by
  induction m with
  | zero =>
    intro fuel v i hi _ _
    have hi8 : i = 8 := by omega
    subst hi8
    cases fuel with
    | zero => simp [hrLoop]
    | succ f =>
      rw [hrLoop, if_neg]
      · simp
      · rintro ⟨_, hlt⟩
        omega
  | succ m ih =>
    intro fuel v i hi hf hge
    cases fuel with
    | zero => omega
    | succ f =>
      rw [hrLoop, if_pos ⟨by simpa using hge 0 (by omega), by push_cast at hi; omega⟩]
      have h1 := ih f (v / 1024) (i + 1) (by push_cast at hi ⊢; omega) (by omega)
        (fun j hj => by
          have h := hge (j + 1) (by omega)
          rw [div_div, ← pow_succ']
          exact h)
      rw [h1]
      congr 1
      rw [div_div, ← pow_succ']

lemma hrs_eval_some (n : ℕ) (v : ℚ) (m : ℕ) (hn : 1024 ≤ n)
    (hv : float_of_nat n = some v) (h1 : 1 ≤ m) (h8 : m ≤ 8)
    (hlow : (1024:ℚ) ^ m ≤ v) (hhigh : v < 1024 ^ (m + 1)) :
    human_readable_size n
      = some (formatFixed1 (v / 1024 ^ m) ++ hrUnits.getD (m - 1) "") := by
  have hloop : hrLoop 16 v (-1) = (v / 1024 ^ m, -1 + (m : ℤ)) := by
    apply hrLoop_run m 16 v (-1) (by omega) (by omega)
    · intro j hj
      rw [le_div_iff₀ (by positivity : (0:ℚ) < 1024 ^ j)]
      calc (1024:ℚ) * 1024 ^ j = 1024 ^ (j + 1) := (pow_succ' 1024 j).symm
        _ ≤ 1024 ^ m := pow_le_pow_right₀ (by norm_num) (by omega)
        _ ≤ v := hlow
    · rw [div_lt_iff₀ (by positivity : (0:ℚ) < 1024 ^ m)]
      calc v < 1024 ^ (m + 1) := hhigh
        _ = 1024 * 1024 ^ m := pow_succ' 1024 m
  have hget : pyListGet hrUnits (-1 + (m : ℤ)) = some (hrUnits.getD (m - 1) "") := by
    interval_cases m <;> decide
  simp only [human_readable_size, if_neg (show ¬ n < 1024 by omega), hv, hloop, hget]

lemma hrs_eval_none_big (n : ℕ) (v : ℚ) (hn : 1024 ≤ n)
    (hv : float_of_nat n = some v) (hbig : (1024:ℚ) ^ 9 ≤ v) :
    human_readable_size n = none := by
  have hloop : hrLoop 16 v (-1) = (v / 1024 ^ 9, 8) := by
    apply hrLoop_sat 9 16 v (-1) (by omega) (by omega)
    intro j hj
    rw [le_div_iff₀ (by positivity : (0:ℚ) < 1024 ^ j)]
    calc (1024:ℚ) * 1024 ^ j = 1024 ^ (j + 1) := (pow_succ' 1024 j).symm
      _ ≤ 1024 ^ 9 := pow_le_pow_right₀ (by norm_num) (by omega)
      _ ≤ v := hbig
  simp only [human_readable_size, if_neg (show ¬ n < 1024 by omega), hv, hloop,
    show pyListGet hrUnits 8 = none from by decide]

lemma log2_eq_of_bracket {q : ℚ} {E : ℤ} (hq : 0 < q)
    (hlow : (2:ℚ) ^ E ≤ q) (hup : q < 2 ^ (E + 1)) : Int.log 2 q = E := by
  have h1 : E ≤ Int.log 2 q := by
    apply (Int.zpow_le_iff_le_log (by norm_num) hq).mp
    simpa using hlow
  have h2 : Int.log 2 q ≤ E := by
    by_contra h
    push_neg at h
    have hmono : (2:ℚ) ^ (E + 1) ≤ 2 ^ Int.log 2 q :=
      zpow_le_zpow_right₀ (by norm_num) (by omega)
    have hle := zpow_log_le hq
    linarith
  omega

lemma floatRound_nat_lt_2pow90 {n : ℕ} (hn : 1024 ≤ n) (hlt : n < 2 ^ 90 - 2 ^ 36) :
    floatRound (n : ℚ) < 2 ^ (90 : ℤ) := by
  have hq : (0:ℚ) < (n : ℚ) := by exact_mod_cast (by omega : 0 < n)
  rcases lt_or_le ((n : ℚ)) ((2:ℚ) ^ (89 : ℤ)) with hcase | hcase
  · have he : Int.log 2 (n : ℚ) ≤ 88 := by
      by_contra h
      push_neg at h
      have hmono : (2:ℚ) ^ (89:ℤ) ≤ 2 ^ Int.log 2 (n : ℚ) :=
        zpow_le_zpow_right₀ (by norm_num) (by omega)
      have hle := zpow_log_le hq
      linarith
    calc floatRound (n : ℚ) ≤ 2 ^ (Int.log 2 (n : ℚ) + 1) := floatRound_le_zpow_succ hq
      _ ≤ 2 ^ (89:ℤ) := zpow_le_zpow_right₀ (by norm_num) (by omega)
      _ < 2 ^ (90:ℤ) := by norm_num
  · have hup : (n : ℚ) < 2 ^ (90:ℤ) := by
      have h2 : (n:ℚ) < ((2 ^ 90 - 2 ^ 36 : ℕ) : ℚ) := by exact_mod_cast hlt
      calc (n:ℚ) < ((2 ^ 90 - 2 ^ 36 : ℕ) : ℚ) := h2
        _ = 2 ^ (90:ℤ) - 2 ^ (36:ℤ) := by
            push_cast
            norm_num
        _ ≤ 2 ^ (90:ℤ) := by norm_num
    have he : Int.log 2 (n : ℚ) = 89 :=
      log2_eq_of_bracket hq hcase
        (by rw [show (89:ℤ) + 1 = 90 from rfl]; exact hup)
    rw [floatRound_of_pos hq, he, show (89:ℤ) - 52 = 37 from rfl]
    have hm : (n : ℚ) / 2 ^ (37:ℤ) < 2 ^ (53:ℤ) - 1/2 := by
      rw [div_lt_iff₀ (by positivity)]
      have hrhs : ((2:ℚ) ^ (53:ℤ) - 1/2) * 2 ^ (37:ℤ) = 2 ^ (90:ℤ) - 2 ^ (36:ℤ) := by
        norm_num
      rw [hrhs]
      have h2 : (n:ℚ) < ((2 ^ 90 - 2 ^ 36 : ℕ) : ℚ) := by exact_mod_cast hlt
      calc (n:ℚ) < ((2 ^ 90 - 2 ^ 36 : ℕ) : ℚ) := h2
        _ = 2 ^ (90:ℤ) - 2 ^ (36:ℤ) := by
            push_cast
            norm_num
    have hrhe : (rhe ((n : ℚ) / 2 ^ (37:ℤ)) : ℚ) < 2 ^ (53:ℤ) :=
      lt_of_le_of_lt (rhe_le _) (by linarith)
    calc (rhe ((n : ℚ) / 2 ^ (37:ℤ)) : ℚ) * 2 ^ (37:ℤ)
        < 2 ^ (53:ℤ) * 2 ^ (37:ℤ) :=
          mul_lt_mul_of_pos_right hrhe (by positivity)
      _ = 2 ^ (90:ℤ) := by norm_num

lemma floatRound_nat_ge_2pow90 {n : ℕ} (hge : 2 ^ 90 - 2 ^ 36 ≤ n) :
    (2:ℚ) ^ (90 : ℤ) ≤ floatRound (n : ℚ) := by
  have hn0 : 0 < n := by
    have : (1:ℕ) ≤ 2 ^ 90 - 2 ^ 36 := by norm_num
    omega
  have hq : (0:ℚ) < (n : ℚ) := by exact_mod_cast hn0
  rcases lt_or_le n (2 ^ 90) with hcase | hcase
  · have hlowq : ((2 ^ 90 - 2 ^ 36 : ℕ) : ℚ) ≤ (n : ℚ) := by exact_mod_cast hge
    have hlowq' : 2 ^ (90:ℤ) - 2 ^ (36:ℤ) ≤ (n : ℚ) := by
      calc (2:ℚ) ^ (90:ℤ) - 2 ^ (36:ℤ) = ((2 ^ 90 - 2 ^ 36 : ℕ) : ℚ) := by
            push_cast
            norm_num
        _ ≤ (n : ℚ) := hlowq
    have hupq : (n : ℚ) < 2 ^ (90:ℤ) := by
      have h2 : (n:ℚ) < ((2 ^ 90 : ℕ) : ℚ) := by exact_mod_cast hcase
      calc (n:ℚ) < ((2 ^ 90 : ℕ) : ℚ) := h2
        _ = 2 ^ (90:ℤ) := by
            push_cast
            norm_num
    have he : Int.log 2 (n : ℚ) = 89 := by
      apply log2_eq_of_bracket hq
      · have hmid : (2:ℚ) ^ (89:ℤ) ≤ 2 ^ (90:ℤ) - 2 ^ (36:ℤ) := by norm_num
        linarith
      · rw [show (89:ℤ) + 1 = 90 from rfl]
        exact hupq
    rw [floatRound_of_pos hq, he, show (89:ℤ) - 52 = 37 from rfl]
    have hmlow : (2:ℚ) ^ (53:ℤ) - 1/2 ≤ (n : ℚ) / 2 ^ (37:ℤ) := by
      rw [le_div_iff₀ (by positivity)]
      calc ((2:ℚ) ^ (53:ℤ) - 1/2) * 2 ^ (37:ℤ) = 2 ^ (90:ℤ) - 2 ^ (36:ℤ) := by norm_num
        _ ≤ (n : ℚ) := hlowq'
    have hmup : (n : ℚ) / 2 ^ (37:ℤ) < 2 ^ (53:ℤ) := by
      rw [div_lt_iff₀ (by positivity)]
      calc (n : ℚ) < 2 ^ (90:ℤ) := hupq
        _ = 2 ^ (53:ℤ) * 2 ^ (37:ℤ) := by norm_num
    have hfl : ⌊(n : ℚ) / 2 ^ (37:ℤ)⌋ = 2 ^ 53 - 1 := by
      rw [Int.floor_eq_iff]
      constructor
      · push_cast
        norm_num at hmlow ⊢
        linarith
      · push_cast
        norm_num at hmup ⊢
        linarith
    have hrhe : rhe ((n : ℚ) / 2 ^ (37:ℤ)) = 2 ^ 53 := by
      have h := rhe_eq_floor_add_one_of ((n : ℚ) / 2 ^ (37:ℤ))
        (by
          rw [hfl]
          push_cast
          norm_num at hmlow ⊢
          linarith)
        (fun _ => by
          rw [hfl]
          norm_num)
      rw [hfl] at h
      rw [h]
      ring
    rw [hrhe]
    have : ((2 ^ 53 : ℤ) : ℚ) * 2 ^ (37:ℤ) = 2 ^ (90:ℤ) := by
      push_cast
      norm_num
    rw [this]
  · have he : (90:ℤ) ≤ Int.log 2 (n : ℚ) := by
      apply (Int.zpow_le_iff_le_log (by norm_num) hq).mp
      have h2 : ((2 ^ 90 : ℕ) : ℚ) ≤ (n : ℚ) := by exact_mod_cast hcase
      calc ((2:ℕ):ℚ) ^ (90:ℤ) = ((2 ^ 90 : ℕ) : ℚ) := by
            push_cast
            norm_num
        _ ≤ (n : ℚ) := h2
    calc (2:ℚ) ^ (90:ℤ) ≤ 2 ^ Int.log 2 (n : ℚ) :=
          zpow_le_zpow_right₀ (by norm_num) he
      _ ≤ floatRound (n : ℚ) := floatRound_ge_zpow hq

lemma exists_unit_exp {v : ℚ} (h1 : (1024:ℚ) ≤ v) (h2 : v < (1024:ℚ) ^ (9:ℕ)) :
    ∃ m : ℕ, 1 ≤ m ∧ m ≤ 8 ∧ (1024:ℚ) ^ m ≤ v ∧ v < 1024 ^ (m + 1) := by
  have hv : (0:ℚ) < v := by linarith
  set L := Int.log 1024 v with hL
  have hlow : ((1024:ℕ):ℚ) ^ L ≤ v := Int.zpow_log_le_self (by norm_num) hv
  have hup : v < ((1024:ℕ):ℚ) ^ (L + 1) := Int.lt_zpow_succ_log_self (by norm_num) v
  have hL1 : 1 ≤ L := by
    by_contra h
    push_neg at h
    have hmono : ((1024:ℕ):ℚ) ^ (L + 1) ≤ ((1024:ℕ):ℚ) ^ (1:ℤ) :=
      zpow_le_zpow_right₀ (by norm_num) (by omega)
    have hsmall : v < 1024 := by
      have := lt_of_lt_of_le hup hmono
      norm_num at this
      linarith
    linarith
  have hL8 : L ≤ 8 := by
    by_contra h
    push_neg at h
    have hmono : ((1024:ℕ):ℚ) ^ (9:ℤ) ≤ ((1024:ℕ):ℚ) ^ L :=
      zpow_le_zpow_right₀ (by norm_num) (by omega)
    have h9 : ((1024:ℕ):ℚ) ^ (9:ℤ) ≤ v := le_trans hmono hlow
    norm_num at h9
    linarith
  have hcast : ∀ z : ℤ, 0 ≤ z → ((1024:ℕ):ℚ) ^ z = (1024:ℚ) ^ z.toNat := by
    intro z hz
    rw [show ((1024:ℕ):ℚ) = (1024:ℚ) from by norm_num,
      ← zpow_natCast (1024:ℚ) z.toNat, Int.toNat_of_nonneg hz]
  refine ⟨L.toNat, by omega, by omega, ?_, ?_⟩
  · rw [← hcast L (by omega)]
    exact hlow
  · have hLn : ((L.toNat + 1 : ℕ) : ℤ) = L + 1 := by omega
    calc v < ((1024:ℕ):ℚ) ^ (L + 1) := hup
      _ = (1024:ℚ) ^ (L.toNat + 1) := by
          rw [show ((1024:ℕ):ℚ) = (1024:ℚ) from by norm_num,
            ← zpow_natCast (1024:ℚ) (L.toNat + 1), hLn]

lemma hrs_small {n : ℕ} (h : n < 1024) :
    human_readable_size n = some (toString n ++ "B") := by
  simp [human_readable_size, h]

lemma hrs_isSome_of_lt {n : ℕ} (h : n < 2 ^ 90 - 2 ^ 36) :
    (human_readable_size n).isSome := by
  rcases lt_or_le n 1024 with hs | hb
  · rw [hrs_small hs]
    rfl
  · have hq : (0:ℚ) < (n : ℚ) := by exact_mod_cast (by omega : 0 < n)
    have hfr_lt := floatRound_nat_lt_2pow90 hb h
    have hsome : float_of_nat n = some (floatRound (n : ℚ)) := by
      rw [float_of_nat, if_pos]
      calc floatRound (n : ℚ) < 2 ^ (90:ℤ) := hfr_lt
        _ ≤ 2 ^ (1024:ℕ) := by norm_num
    have hv1024 : (1024:ℚ) ≤ floatRound (n : ℚ) := by
      have he : (10:ℤ) ≤ Int.log 2 (n : ℚ) := by
        apply (Int.zpow_le_iff_le_log (by norm_num) hq).mp
        have h2 : ((1024 : ℕ) : ℚ) ≤ (n : ℚ) := by exact_mod_cast hb
        calc ((2:ℕ):ℚ) ^ (10:ℤ) = ((1024 : ℕ) : ℚ) := by norm_num
          _ ≤ (n : ℚ) := h2
      calc (1024:ℚ) = 2 ^ (10:ℤ) := by norm_num
        _ ≤ 2 ^ Int.log 2 (n : ℚ) := zpow_le_zpow_right₀ (by norm_num) he
        _ ≤ floatRound (n : ℚ) := floatRound_ge_zpow hq
    obtain ⟨m, hm1, hm8, hml, hmh⟩ := exists_unit_exp hv1024
      (by
        calc floatRound (n : ℚ) < 2 ^ (90:ℤ) := hfr_lt
          _ = (1024:ℚ) ^ (9:ℕ) := by norm_num)
    rw [hrs_eval_some n _ m hb hsome hm1 hm8 hml hmh]
    rfl

lemma hrs_none_of_ge {n : ℕ} (h : 2 ^ 90 - 2 ^ 36 ≤ n) :
    human_readable_size n = none := by
  have hb : 1024 ≤ n := by
    have : (1024:ℕ) ≤ 2 ^ 90 - 2 ^ 36 := by norm_num
    omega
  have hfr := floatRound_nat_ge_2pow90 h
  rcases lt_or_le (floatRound (n : ℚ)) ((2:ℚ) ^ (1024:ℕ)) with hcase | hcase
  · have hsome : float_of_nat n = some (floatRound (n : ℚ)) := by
      rw [float_of_nat, if_pos hcase]
    apply hrs_eval_none_big n _ hb hsome
    calc (1024:ℚ) ^ (9:ℕ) = 2 ^ (90:ℤ) := by norm_num
      _ ≤ _ := hfr
  · have hnone : float_of_nat n = none := by
      rw [float_of_nat, if_neg (not_lt.mpr hcase)]
    simp [human_readable_size, show ¬ n < 1024 by omega, hnone]

/-! ## Claim C10 -/

/-- C10 counterexample: `2^90 - 1` is below the claimed safe bound
`1024^9 = 2^90`, yet `human_readable_size` does not return a string there:
`float(2^90 - 1)` rounds up to exactly `2^90`, the loop performs its ninth
division, and the final unit lookup is out of bounds. -/
theorem hrs_crashes_below_claimed_bound :
    ((2:ℕ) ^ 90 - 1 < 1024 ^ 9) ∧ human_readable_size (2 ^ 90 - 1) = none := by
  constructor
  · norm_num
  · exact hrs_none_of_ge (by norm_num)

/-- C10 (amended): `human_readable_size n` returns a string exactly when
`n < 2^90 - 2^36`; the tight bound is not `1024^9 = 2^90`, because the
`float(num_bytes)` conversion rounds to 53 significant bits, so every
`n ≥ 2^90 - 2^36` already rounds up to at least `2^90`, the loop guard
allows one more division than there are units, and the final unit lookup
indexes past the end of the 8-element list (or, for astronomically large
`n`, the float conversion itself overflows). -/
theorem hrs_defined_iff_below_float_bound :
    ∀ n : ℕ, (human_readable_size n).isSome ↔ n < 2 ^ 90 - 2 ^ 36 := by
  intro n
  constructor
  · intro h
    by_contra hge
    push_neg at hge
    rw [hrs_none_of_ge hge] at h
    simp at h
  · exact hrs_isSome_of_lt

/-! ## Claim C6 -/

lemma formatFixed1_eval (q : ℚ) (z : ℤ) (h : q * 10 = (z : ℚ)) :
    formatFixed1 q = toString (z / 10) ++ "." ++ toString (z % 10) := by
  rw [formatFixed1, h, rhe_intCast]

lemma float_of_nat_small {n : ℕ} (h1 : 1 ≤ n) (h2 : n ≤ 2 ^ 53) :
    float_of_nat n = some (n : ℚ) := by
  have hfr : floatRound ((n:ℕ) : ℚ) = ((n : ℤ) : ℚ) := by
    have := floatRound_intCast (k := (n : ℤ)) (by exact_mod_cast h1)
      (by exact_mod_cast h2)
    simpa using this
  rw [float_of_nat]
  rw [show ((n : ℕ) : ℚ) = ((n : ℤ) : ℚ) from by push_cast; rfl] at hfr ⊢
  rw [hfr, if_pos]
  have : ((n : ℤ) : ℚ) ≤ ((2:ℚ) ^ (53:ℕ)) := by
    push_cast
    exact_mod_cast h2
  calc ((n : ℤ) : ℚ) ≤ (2:ℚ) ^ (53:ℕ) := this
    _ < 2 ^ (1024:ℕ) := by norm_num

/-- C6 counterexample: at `n = 1024^9` the formatter does not render a
string at all (the unit list is exhausted and the lookup raises), so the
claim's "for every nonnegative integer n" is too strong. -/
theorem hrs_no_string_at_1024_pow_9 :
    human_readable_size (1024 ^ 9) = none :=
  hrs_none_of_ge (by norm_num)

/-- C6 (amended): below 1024 the formatter renders the integer followed by
`B`; for `1024 ≤ n` whose float64 value `v` satisfies
`1024^m ≤ v < 1024^(m+1)` with `1 ≤ m ≤ 8` (equivalently `v < 1024^9`; for
larger `n` the unit list is exhausted and no string is returned), it renders
`v / 1024^m` with one fractional digit followed by the `m`-th unit of
`K, M, G, T, P, E, Z, Y`; in particular 999 renders as `"999B"`, 1024 as
`"1.0K"`, 1536 as `"1.5K"` and 1048576 as `"1.0M"`. -/
theorem byte_size_formatting :
    (∀ n : ℕ, n < 1024 → human_readable_size n = some (toString n ++ "B")) ∧
    (∀ (n m : ℕ) (v : ℚ), 1024 ≤ n → float_of_nat n = some v →
        1 ≤ m → m ≤ 8 → (1024:ℚ) ^ m ≤ v → v < 1024 ^ (m + 1) →
        human_readable_size n
          = some (formatFixed1 (v / 1024 ^ m) ++ hrUnits.getD (m - 1) "")) ∧
    human_readable_size 999 = some "999B" ∧
    human_readable_size 1024 = some "1.0K" ∧
    human_readable_size 1536 = some "1.5K" ∧
    human_readable_size 1048576 = some "1.0M" := by
  refine ⟨fun n h => hrs_small h,
    fun n m v hn hv h1 h8 hl hh => hrs_eval_some n v m hn hv h1 h8 hl hh,
    ?_, ?_, ?_, ?_⟩
  · rw [hrs_small (by norm_num)]
    rfl
  · rw [hrs_eval_some 1024 1024 1 (by norm_num)
      (by exact_mod_cast float_of_nat_small (by norm_num) (by norm_num))
      (by norm_num) (by norm_num) (by norm_num) (by norm_num)]
    rw [formatFixed1_eval ((1024:ℚ) / 1024 ^ 1) 10 (by norm_num)]
    rfl
  · rw [hrs_eval_some 1536 1536 1 (by norm_num)
      (by exact_mod_cast float_of_nat_small (by norm_num) (by norm_num))
      (by norm_num) (by norm_num) (by norm_num) (by norm_num)]
    rw [formatFixed1_eval ((1536:ℚ) / 1024 ^ 1) 15 (by norm_num)]
    rfl
  · rw [hrs_eval_some 1048576 1048576 2 (by norm_num)
      (by exact_mod_cast float_of_nat_small (by norm_num) (by norm_num))
      (by norm_num) (by norm_num) (by norm_num) (by norm_num)]
    rw [formatFixed1_eval ((1048576:ℚ) / 1024 ^ 2) 10 (by norm_num)]
    rfl

/-- Witness for C6 (amended): the sub-1024 branch at a concrete input, via
the claim's theorem. -/
theorem byte_size_formatting_witness :
    human_readable_size 5 = some (toString 5 ++ "B") :=
  byte_size_formatting.1 5 (by norm_num)
